import Mathlib

/-!
Verification development for the usdb_syncer excerpt: song data presentation
(`song_data.py`), media resource downloading (`resource_dl.py`) and the filter
tree controller (`gui/search_tree/tree.py`).  Python functions are shallowly
embedded as Lean functions; the filesystem, the network and the external
libraries (requests, yt_dlp, unidecode, Qt) are explicit oracle parameters.
-/

namespace UsdbSyncer

/-! ## String utilities

Embeddings of the Python string primitives used by the sources: `in`
(substring test), `str.replace` (leftmost, non-overlapping, replace all) and
`str.lower` (ASCII case folding suffices here because it is only applied to
transliterated ASCII output).
-/

/-- Embedding of Python `pat in s` (substring containment) on character
lists. -/
def occursIn (pat : List Char) : List Char → Bool
  | [] => pat.isPrefixOf []
  | c :: rest => pat.isPrefixOf (c :: rest) || occursIn pat rest

/-- Embedding of Python `s.replace(old, new)` for a non-empty `old`:
replace every occurrence, scanning left to right, continuing after each
replacement (non-overlapping).  `fuel` only bounds the recursion; any value
at least `s.length` yields Python's semantics. -/
def replaceAux (old new : List Char) : Nat → List Char → List Char
  | 0, s => s
  | _ + 1, [] => []
  | fuel + 1, c :: rest =>
    if old ≠ [] ∧ old.isPrefixOf (c :: rest) then
      new ++ replaceAux old new fuel ((c :: rest).drop old.length)
    else
      c :: replaceAux old new fuel rest

/-- Embedding of Python `s.replace(old, new)` on strings (for non-empty
`old`, which is the only way the sources use it). -/
def strReplace (s old new : String) : String :=
  String.mk (replaceAux old.data new.data s.data.length s.data)

/-- Embedding of Python `s.lower()`; all call sites apply it to ASCII
transliteration output, where ASCII case folding is exact. -/
def lowerStr (s : String) : String :=
  String.mk (s.data.map Char.toLower)

/-- Modelled from the spec: transliteration table of the external `unidecode`
library for a sample of non-ASCII characters (the full table lives in that
library, which is not part of this repository). -/
def uniTable : List (Char × List Char) :=
  [('ä', ['a']), ('ö', ['o']), ('ü', ['u']), ('é', ['e']), ('è', ['e']),
   ('ß', ['s', 's']), ('ñ', ['n']), ('ç', ['c'])]

/-- Lookup in the transliteration table. -/
def uniLookup (c : Char) : List (Char × List Char) → Option (List Char)
  | [] => none
  | (k, v) :: rest => if c = k then some v else uniLookup c rest

/-- Modelled from the spec: the external `unidecode` library transliterates
text "to ASCII-equivalent characters".  ASCII characters map to themselves;
characters in the sample table map to their ASCII equivalents; all other
characters are dropped. -/
def unidecodeChar (c : Char) : List Char :=
  if c.toNat < 128 then [c]
  else
    match uniLookup c uniTable with
    | some out => out
    | none => []

/-- Modelled from the spec: `unidecode` applied to a whole string. -/
def unidecodeM (s : String) : String :=
  String.mk (s.data.flatMap unidecodeChar)

/-- The replacement table `REPLACEMENTS` of `song_data.py` (common word
variations), applied in order. -/
def REPLACEMENTS : List (String × String) :=
  [(" vs. ", " vs  "),
   (" & ", " and "),
   ("&", " and "),
   (" + ", " and "),
   (" ft. ", " feat. "),
   (" ft ", " feat. "),
   (" feat ", " feat. "),
   ("!", ""),
   ("?", ""),
   ("/", "")]

/-- Embedding of `fuzz_text` from `song_data.py`: transliterate, lowercase,
then apply the replacement table in order. -/
def fuzz_text (text : String) : String :=
  REPLACEMENTS.foldl (fun t p => strReplace t p.1 p.2) (lowerStr (unidecodeM text))

/-- Characters that appear in any normalized string: ASCII and not an
upper-case letter. -/
abbrev normChar (c : Char) : Prop :=
  c.toNat < 128 ∧ ¬(65 ≤ c.toNat ∧ c.toNat ≤ 90)

/-! ## Song data (`song_data.py`)

The song record comes from the scraper layer; its fields are the ones the
shown code reads.  The filesystem, the text reader
(`try_read_unknown_encoding` from `utils.py`) and the notes parser
(`SongTxt.try_parse` from `notes_parser.py`) are oracles: the latter two are
repository code outside the excerpt, so only their `str -> optional` shapes
are assumed, and every theorem quantifies over all oracles.
-/

/-- The USDB song record (owned by the scraper layer; fields as read by
`song_data.py`). -/
structure UsdbSong where
  song_id : Nat
  artist : String
  title : String
  language : String
  edition : String
  golden_notes : Bool
  rating : Nat
  views : Nat
  deriving DecidableEq

/-- The header fields of a parsed notes file that `song_data.py` reads.
`none` models a Python `None` header, `some ""` an empty one. -/
structure Headers where
  mp3 : Option String
  video : Option String
  cover : Option String
  background : Option String
  deriving DecidableEq

/-- A parsed notes object (`SongTxt`); only its headers are consumed here. -/
structure SongTxt where
  headers : Headers
  deriving DecidableEq

/-- Oracle for the filesystem and the out-of-excerpt helpers:
`path_exists` is `os.path.exists`; `try_read_unknown_encoding` (from
`utils.py`) returns the decoded contents or `none`; `try_parse` is
`SongTxt.try_parse`, returning `none` on a parse failure. -/
structure FsEnv where
  path_exists : String → Bool
  try_read_unknown_encoding : String → Option String
  try_parse : String → Option SongTxt

/-- Embedding of `os.path.join` for the relative path segments used here. -/
def path_join (a b : String) : String := a ++ "/" ++ b

/-- Embedding of `_song_folder_path`: `<root>/<artist> - <title>/<id>`. -/
def song_folder_path (song : UsdbSong) (song_dir : String) : String :=
  path_join (path_join song_dir (song.artist ++ " - " ++ song.title))
    (toString song.song_id)

/-- Embedding of `_get_song_txt`.  The first component is the returned
parsed notes object (or `none`); the second lists the files passed to
`try_read_unknown_encoding`, so "no attempt to read a notes file" is the
statement that the list is empty. -/
def get_song_txt (env : FsEnv) (song : UsdbSong) (song_dir : String) :
    Option SongTxt × List String :=
  let folder := song_folder_path song song_dir
  if env.path_exists (path_join folder (toString song.song_id ++ ".usdb")) = false then
    (none, [])
  else
    let txt_path := path_join folder (song.artist ++ " - " ++ song.title ++ ".txt")
    if env.path_exists txt_path then
      match env.try_read_unknown_encoding txt_path with
      | some contents =>
        if contents ≠ "" then (env.try_parse contents, [txt_path])
        else (none, [txt_path])
      | none => (none, [txt_path])
    else (none, [])

/-- Embedding of `_file_exists`: a falsy filename (Python `None` or the empty
string) is `False` without consulting the filesystem oracle. -/
def file_exists (env : FsEnv) (folder : String) (fname : Option String) : Bool :=
  match fname with
  | none => false
  | some f => if f = "" then false else env.path_exists (path_join folder f)

/-- Embedding of `FuzzySearchText`: the five normalized search fields. -/
structure FuzzySearchText where
  song_id : String
  artist : String
  title : String
  language : String
  edition : String
  deriving DecidableEq

/-- Embedding of `FuzzySearchText.__init__`. -/
def FuzzySearchText.ofSong (song : UsdbSong) : FuzzySearchText :=
  { song_id := toString song.song_id
    artist := fuzz_text song.artist
    title := fuzz_text song.title
    language := fuzz_text song.language
    edition := fuzz_text song.edition }

/-- Embedding of `FuzzySearchText.__contains__`: `text in self` holds when
`text` is a substring of any of the five fields. -/
def FuzzySearchText.containsText (f : FuzzySearchText) (text : String) : Bool :=
  occursIn text.data f.song_id.data || occursIn text.data f.artist.data ||
    occursIn text.data f.title.data || occursIn text.data f.language.data ||
    occursIn text.data f.edition.data

/-- Embedding of the `SongData` record. -/
structure SongData where
  data : UsdbSong
  fuzzy_text : FuzzySearchText
  local_txt : Bool
  local_audio : Bool
  local_video : Bool
  local_cover : Bool
  local_background : Bool
  deriving DecidableEq

/-- Embedding of `SongData.from_usdb_song`. -/
def SongData.from_usdb_song (env : FsEnv) (song : UsdbSong) (song_dir : String) :
    SongData :=
  let folder := song_folder_path song song_dir
  let txt := (get_song_txt env song song_dir).1
  { data := song
    fuzzy_text := FuzzySearchText.ofSong song
    local_txt := txt.isSome
    local_audio := match txt with
      | some t => file_exists env folder t.headers.mp3
      | none => false
    local_video := match txt with
      | some t => file_exists env folder t.headers.video
      | none => false
    local_cover := match txt with
      | some t => file_exists env folder t.headers.cover
      | none => false
    local_background := match txt with
      | some t => file_exists env folder t.headers.background
      | none => false }

/-- Modelled from the spec: the `Column` enum of
`gui/song_table/column.py` (not in the excerpt); its members are the ones
matched by `display_data` and `decoration_data`. -/
inductive Column
  | SONG_ID | ARTIST | TITLE | LANGUAGE | EDITION
  | GOLDEN_NOTES | RATING | VIEWS
  | TXT | AUDIO_TRACK | VIDEO | COVER | BACKGROUND
  deriving DecidableEq

/-- Modelled from the spec: a Qt icon (`QIcon`, external); only the check
mark icon is ever produced here. -/
inductive Icon
  | check
  deriving DecidableEq

/-- Embedding of `optional_check_icon`. -/
def optional_check_icon (yes : Bool) : Option Icon :=
  if yes then some Icon.check else none

/-- Embedding of `rating_str`: the rating as that many stars. -/
def rating_str (rating : Nat) : String :=
  String.mk (List.replicate rating '★')

/-- Embedding of `yes_no_str`. -/
def yes_no_str (yes : Bool) : String :=
  if yes then "Yes" else "No"

/-- Embedding of `SongData.display_data`; `Column` is a closed enum, so the
match is total and the `assert_never` default branch of the Python match is
dead code. -/
def SongData.display_data (sd : SongData) (col : Column) : Option String :=
  match col with
  | .SONG_ID => some (toString sd.data.song_id)
  | .ARTIST => some sd.data.artist
  | .TITLE => some sd.data.title
  | .LANGUAGE => some sd.data.language
  | .EDITION => some sd.data.edition
  | .GOLDEN_NOTES => some (yes_no_str sd.data.golden_notes)
  | .RATING => some (rating_str sd.data.rating)
  | .VIEWS => some (toString sd.data.views)
  | .TXT => none
  | .AUDIO_TRACK => none
  | .VIDEO => none
  | .COVER => none
  | .BACKGROUND => none

/-- Embedding of `SongData.decoration_data`; as for `display_data`, the
match is total over the closed enum. -/
def SongData.decoration_data (sd : SongData) (col : Column) : Option Icon :=
  match col with
  | .SONG_ID => none
  | .ARTIST => none
  | .TITLE => none
  | .LANGUAGE => none
  | .EDITION => none
  | .GOLDEN_NOTES => none
  | .RATING => none
  | .VIEWS => none
  | .TXT => optional_check_icon sd.local_txt
  | .AUDIO_TRACK => optional_check_icon sd.local_audio
  | .VIDEO => optional_check_icon sd.local_video
  | .COVER => optional_check_icon sd.local_cover
  | .BACKGROUND => optional_check_icon sd.local_background

/-- The status-icon columns; the remaining columns are the text columns. -/
def Column.is_status_icon : Column → Bool
  | .TXT | .AUDIO_TRACK | .VIDEO | .COVER | .BACKGROUND => true
  | _ => false

/-! ## Media resource downloading (`resource_dl.py`)

The network is an oracle: `requests_get timeout url` models
`requests.get(url, ...)` at the two call sites (the redirect probe uses
timeout 1, the image fetch timeout 60), either raising a
`requests.RequestException` (the `Except.error` branch) or returning a
response; `ydl_extract` models `ydl.extract_info` plus `prepare_filename`,
either raising a `yt_dlp.utils.YoutubeDLError` or returning a filename.
A Lean result of `Except.error e` means the Python call raised `e` out of
the embedded function.
-/

/-- A transport-level failure of `requests.get`
(`requests.RequestException`). -/
inductive RequestError
  | timeout
  | connectionError
  deriving DecidableEq

/-- A failure of the download library (`yt_dlp.utils.YoutubeDLError`). -/
inductive YtdlError
  | downloadError (msg : String)
  deriving DecidableEq

/-- The parts of a `requests` response read by `resource_dl.py`: the final
URL after redirects, the status code and the body. -/
structure HttpResponse where
  url : String
  status_code : Nat
  content : String
  deriving DecidableEq

/-- The log entries emitted by `check_url`, `download_video` and
`download_image`, one constructor per call site, carrying the interpolated
data. -/
inductive LogEntry
  | debugRedirect (domain final : String)
  | errorRestricted (domain : Option String)
  | errorRetrieve (url : String)
  | errorClient (status : Nat) (url : String)
  | errorServer (status : Nat) (url : String)
  | debugVideoError (url : String)
  deriving DecidableEq

/-- Network oracle (the external `requests` and `yt_dlp` libraries). -/
structure NetEnv where
  requests_get : Nat → String → Except RequestError HttpResponse
  ydl_extract : String → Except YtdlError String

/-- The suffix of `s` after the first occurrence of the non-empty pattern
`pat`, or `none` when `pat` does not occur. -/
def afterFirst (pat : List Char) : List Char → Option (List Char)
  | [] => none
  | c :: rest =>
    if pat.isPrefixOf (c :: rest) then some ((c :: rest).drop pat.length)
    else afterFirst pat rest

/-- Modelled from the spec: `urlparse(url).netloc` of the external `urllib`
library, for the URL shapes that occur here — the host part between the
scheme separator `://` and the next `/`, `?` or `#`; empty when the string
has no scheme. -/
def netloc (url : String) : String :=
  match afterFirst ("://".data) url.data with
  | some rest => String.mk (rest.takeWhile fun c => c ≠ '/' && c ≠ '?' && c ≠ '#')
  | none => ""

/-- Embedding of `url_from_video_resouce` (sic): a string with a scheme is
returned unchanged, a string with a path separator gets `https://`
prepended, and anything else is a YouTube video id. -/
def url_from_video_resouce (resource : String) : String :=
  if occursIn "://".data resource.data then resource
  else if occursIn "/".data resource.data then "https://" ++ resource
  else "https://www.youtube.com/watch?v=" ++ resource

/-- The hardcoded allow-list of `is_domain_allowed`: each base domain, bare
and with a `www.` prefix. -/
def domain_white_list : List String :=
  (["", "www."].flatMap fun sub =>
    ["youtube.com", "youtu.be", "vimeo.com", "dailymotion.com",
      "universal-music.de", "images.fanart.tv", "fanart.tv"].map
      fun domain => sub ++ domain)

/-- Embedding of `is_domain_allowed`. -/
def is_domain_allowed (test_domain : String) : Bool :=
  domain_white_list.contains test_domain

/-- Embedding of `check_url`.  The probe `requests.get(url, timeout=1)` is
not wrapped in a `try`, so its transport error propagates
(`Except.error`). -/
def check_url (env : NetEnv) (url : String) :
    Except RequestError ((Bool × Option String) × List LogEntry) :=
  let domain := netloc url
  if is_domain_allowed domain = false then
    .ok ((false, some domain), [])
  else
    match env.requests_get 1 url with
    | .error e => .error e
    | .ok resp =>
      let fdomain := netloc resp.url
      if fdomain ≠ domain then
        if is_domain_allowed fdomain = false then
          .ok ((false, some fdomain), [LogEntry.debugRedirect domain fdomain])
        else
          .ok ((true, none), [LogEntry.debugRedirect domain fdomain])
      else
        .ok ((true, none), [])

/-- The suffix of `l` after the last occurrence of `ch`, or `none` when `ch`
does not occur. -/
def afterLastChar (ch : Char) : List Char → Option (List Char)
  | [] => none
  | c :: rest =>
    match afterLastChar ch rest with
    | some s => some s
    | none => if c = ch then some rest else none

/-- Modelled from the spec: `os.path.splitext(filename)[1][1:]` — the
extension of the basename without its dot; empty when there is none.
Leading dots of the basename do not start an extension. -/
def splitext_ext (filename : String) : String :=
  let base := (afterLastChar '/' filename.data).getD filename.data
  let rest := base.dropWhile fun c => c = '.'
  match afterLastChar '.' rest with
  | some s => String.mk s
  | none => ""

/-- Embedding of `download_video`.  `audio_format` is
`options.format.value` when the options are `AudioOptions`, else `none`;
the cookie and format plumbing of `ydl_opts` does not affect control flow.
The `YoutubeDLError` of the extraction is caught; the probe error of
`check_url` is not. -/
def download_video (env : NetEnv) (resource : String) (audio_format : Option String) :
    Except RequestError (Option String × List LogEntry) :=
  let url := url_from_video_resouce resource
  match check_url env url with
  | .error e => .error e
  | .ok ((url_allowed, forbidden_domain), lg) =>
    if url_allowed = false then
      .ok (none, lg ++ [LogEntry.errorRestricted forbidden_domain])
    else
      match env.ydl_extract url with
      | .error _ => .ok (none, lg ++ [LogEntry.debugVideoError url])
      | .ok filename =>
        let ext := match audio_format with
          | some f => if f = "" then splitext_ext filename else f
          | none => splitext_ext filename
        .ok (some ext, lg)

/-- Embedding of `download_image`.  The fetch `requests.get(..., timeout=60)`
is wrapped in a `try` that absorbs `RequestException`; the status ranges are
Python `range(100, 399)`, `range(400, 499)` and `range(500, 599)`, whose
upper bounds are exclusive. -/
def download_image (env : NetEnv) (url : String) :
    Except RequestError (Option String × List LogEntry) :=
  match check_url env url with
  | .error e => .error e
  | .ok ((url_allowed, forbidden_domain), lg) =>
    if url_allowed = false then
      .ok (none, lg ++ [LogEntry.errorRestricted forbidden_domain])
    else
      match env.requests_get 60 url with
      | .error _ => .ok (none, lg ++ [LogEntry.errorRetrieve url])
      | .ok reply =>
        if 100 ≤ reply.status_code ∧ reply.status_code < 399 then
          .ok (some reply.content, lg)
        else if 400 ≤ reply.status_code ∧ reply.status_code < 499 then
          .ok (none, lg ++ [LogEntry.errorClient reply.status_code reply.url])
        else if 500 ≤ reply.status_code ∧ reply.status_code < 599 then
          .ok (none, lg ++ [LogEntry.errorServer reply.status_code reply.url])
        else
          .ok (none, lg)

/-! ## Filter tree (`gui/search_tree/tree.py`)

`FilterTree._on_click` is in the excerpt; the `toggle_checked` method of the
variant items (`item.py`) is not, so it is modelled from the spec.  The tree
state is the checked flag of every variant node, grouped by category; a node
is addressed by its category index and its index within the category.
-/

/-- Modelled from the spec: the effect of `toggle_checked` on the clicked
node's own category.  The clicked variant is toggled; with the modifier held
(`ctrl`) the siblings keep their state, otherwise they are cleared
(single-select per category). -/
def toggle_cat (ctrl : Bool) : Nat → List Bool → List Bool
  | _, [] => []
  | 0, b :: rest => (!b) :: (if ctrl then rest else rest.map fun _ => false)
  | v + 1, b :: rest => (if ctrl then b else false) :: toggle_cat ctrl v rest

/-- Modelled from the spec: `toggle_checked` on the whole tree — only the
clicked node's category changes. -/
def toggle_checked (ctrl : Bool) : Nat → Nat → List (List Bool) → List (List Bool)
  | _, _, [] => []
  | 0, vi, cat :: rest => toggle_cat ctrl vi cat :: rest
  | ci + 1, vi, cat :: rest => cat :: toggle_checked ctrl ci vi rest

/-- The indices at which two sibling lists differ. -/
def changed_cat : List Bool → List Bool → List Nat
  | a :: as, b :: bs => (if a = b then [] else [0]) ++ (changed_cat as bs).map (· + 1)
  | _, _ => []

/-- The (category, variant) addresses at which two tree states differ;
`toggle_checked` returns these as its changed items. -/
def changed_nodes : List (List Bool) → List (List Bool) → List (Nat × Nat)
  | c1 :: r1, c2 :: r2 =>
    (changed_cat c1 c2).map (fun v => (0, v)) ++
      (changed_nodes r1 r2).map fun p => (p.1 + 1, p.2)
  | _, _ => []

/-- Embedding of `FilterTree._on_click`: apply `toggle_checked` with the
modifier state, then emit a `dataChanged` notification for every changed
item.  The first component is the new tree state, the second the list of
notified nodes. -/
def on_click (ctrl : Bool) (st : List (List Bool)) (ci vi : Nat) :
    List (List Bool) × List (Nat × Nat) :=
  let st2 := toggle_checked ctrl ci vi st
  (st2, changed_nodes st st2)

/-! ## Concrete instances used by witnesses and counterexamples -/

/-- A filesystem oracle on which no path exists. -/
def fsEnvNone : FsEnv :=
  { path_exists := fun _ => false
    try_read_unknown_encoding := fun _ => none
    try_parse := fun _ => none }

/-- A concrete song record. -/
def songA : UsdbSong :=
  { song_id := 123, artist := "Queen", title := "Bohemian Rhapsody",
    language := "English", edition := "SingStar", golden_notes := true,
    rating := 4, views := 250 }

/-- Headers with an absent audio file, an empty video file and set
cover/background files. -/
def headersT : Headers :=
  { mp3 := none, video := some "", cover := some "c.jpg", background := some "b.jpg" }

/-- A parsed notes object with headers `headersT`. -/
def songTxtT : SongTxt :=
  { headers := headersT }

/-- A filesystem oracle on which every path exists and the notes file parses
to `songTxtT`. -/
def fsEnvParsed : FsEnv :=
  { path_exists := fun _ => true
    try_read_unknown_encoding := fun _ => some "notes"
    try_parse := fun _ => some songTxtT }

/-- A concrete `SongData` row. -/
def songDataA : SongData :=
  SongData.from_usdb_song fsEnvNone songA "root"

/-- A network oracle on which every request raises a timeout. -/
def envTimeout : NetEnv :=
  { requests_get := fun _ _ => .error RequestError.timeout
    ydl_extract := fun _ => .ok "video.mp4" }

/-- A network oracle whose redirect probe succeeds without redirecting and
whose content fetch answers with status `s` and body `"body"`. -/
def envStatus (s : Nat) : NetEnv :=
  { requests_get := fun timeout url =>
      if timeout = 1 then .ok { url := url, status_code := 200, content := "" }
      else .ok { url := url, status_code := s, content := "body" }
    ydl_extract := fun _ => .ok "video.mp4" }

/-- A network oracle that redirects every URL to the fixed target `target`
and otherwise succeeds with status 200. -/
def envRedirect (target : String) : NetEnv :=
  { requests_get := fun _ _ => .ok { url := target, status_code := 200, content := "body" }
    ydl_extract := fun _ => .ok "video.mp4" }

theorem isPrefixOf_true_iff (p : List Char) :
    ∀ s : List Char, p.isPrefixOf s = true ↔ ∃ t, s = p ++ t := by
  induction p with
  | nil =>
    intro s
    simp [List.isPrefixOf]
  | cons a as ih =>
    intro s
    cases s with
    | nil =>
      simp [List.isPrefixOf]
    | cons b bs =>
      simp only [List.isPrefixOf, Bool.and_eq_true, beq_iff_eq, ih bs, List.cons_append,
        List.cons.injEq]
      constructor
      · rintro ⟨hab, t, ht⟩
        exact ⟨t, hab.symm, ht⟩
      · rintro ⟨t, hba, ht⟩
        exact ⟨hba.symm, t, ht⟩

theorem occursIn_true_iff (pat : List Char) :
    ∀ s : List Char, occursIn pat s = true ↔ ∃ pre post, s = pre ++ (pat ++ post) := by
  intro s
  induction s with
  | nil =>
    simp only [occursIn, isPrefixOf_true_iff]
    constructor
    · rintro ⟨t, ht⟩
      exact ⟨[], t, by simpa using ht⟩
    · rintro ⟨pre, post, h⟩
      have h' : pre ++ (pat ++ post) = [] := h.symm
      rw [List.append_eq_nil, List.append_eq_nil] at h'
      exact ⟨post, by rw [h'.2.1]; exact h'.2.2.symm⟩
  | cons c rest ih =>
    simp only [occursIn, Bool.or_eq_true, isPrefixOf_true_iff, ih]
    constructor
    · rintro (⟨t, ht⟩ | ⟨pre, post, h⟩)
      · exact ⟨[], t, by simpa using ht⟩
      · exact ⟨c :: pre, post, by simp [h]⟩
    · rintro ⟨pre, post, h⟩
      cases pre with
      | nil => exact Or.inl ⟨post, by simpa using h⟩
      | cons x xs =>
        simp only [List.cons_append, List.cons.injEq] at h
        exact Or.inr ⟨xs, post, h.2⟩

theorem occursIn_nil_pat (s : List Char) : occursIn [] s = true := by
  cases s <;> simp [occursIn]

theorem replaceAux_of_not_occurs (old new : List Char) :
    ∀ (fuel : Nat) (s : List Char), occursIn old s = false →
      replaceAux old new fuel s = s := by
  intro fuel
  induction fuel with
  | zero => intro s _; rfl
  | succ n ih =>
    intro s h
    cases s with
    | nil => rfl
    | cons c rest =>
      simp only [occursIn, Bool.or_eq_false_iff] at h
      simp only [replaceAux]
      rw [if_neg, ih rest h.2]
      rintro ⟨-, hpre⟩
      rw [h.1] at hpre
      exact Bool.false_ne_true hpre

theorem mem_replaceAux (old new : List Char) :
    ∀ (fuel : Nat) (s : List Char) (c : Char),
      c ∈ replaceAux old new fuel s → c ∈ s ∨ c ∈ new := by
  intro fuel
  induction fuel with
  | zero => intro s c h; exact Or.inl h
  | succ n ih =>
    intro s c h
    cases s with
    | nil => exact Or.inl h
    | cons b rest =>
      simp only [replaceAux] at h
      by_cases hc : old ≠ [] ∧ old.isPrefixOf (b :: rest) = true
      · rw [if_pos hc] at h
        rcases List.mem_append.mp h with hn | hr
        · exact Or.inr hn
        · rcases ih _ c hr with hd | hn
          · exact Or.inl (List.mem_of_mem_drop hd)
          · exact Or.inr hn
      · rw [if_neg hc] at h
        rcases List.mem_cons.mp h with rfl | hr
        · exact Or.inl (List.mem_cons_self _ _)
        · rcases ih _ c hr with h1 | h2
          · exact Or.inl (List.mem_cons_of_mem _ h1)
          · exact Or.inr h2

theorem toNat_Char_ofNat (n : Nat) (h : n < 55296) : (Char.ofNat n).toNat = n := by
  unfold Char.ofNat
  rw [dif_pos (Or.inl h)]
  rfl

theorem toLower_eq_self (c : Char) (h : ¬(65 ≤ c.toNat ∧ c.toNat ≤ 90)) :
    Char.toLower c = c := by
  simp only [Char.toLower]
  split
  · rename_i hc
    exact absurd ⟨hc.1, hc.2⟩ h
  · rfl

theorem normChar_toLower (c : Char) (h : c.toNat < 128) : normChar (Char.toLower c) := by
  simp only [Char.toLower]
  split
  · rename_i hc
    have h1 : (65 : Nat) ≤ c.toNat := hc.1
    have h2 : c.toNat ≤ 90 := hc.2
    constructor
    · rw [toNat_Char_ofNat _ (by omega)]; omega
    · rw [toNat_Char_ofNat _ (by omega)]; omega
  · rename_i hc
    exact ⟨h, fun hx => hc ⟨hx.1, hx.2⟩⟩

theorem uniTable_ascii : ∀ p ∈ uniTable, ∀ d ∈ p.2, d.toNat < 128 := by decide

theorem uniLookup_ascii (c : Char) :
    ∀ (t : List (Char × List Char)), (∀ p ∈ t, ∀ d ∈ p.2, d.toNat < 128) →
      ∀ v, uniLookup c t = some v → ∀ d ∈ v, d.toNat < 128 := by
  intro t
  induction t with
  | nil =>
    intro _ v hv
    simp [uniLookup] at hv
  | cons p rest ih =>
    intro ht v hv
    simp only [uniLookup] at hv
    by_cases hc : c = p.1
    · rw [if_pos hc] at hv
      cases hv
      exact ht p (List.mem_cons_self _ _)
    · rw [if_neg hc] at hv
      exact ih (fun q hq => ht q (List.mem_cons_of_mem _ hq)) v hv

theorem unidecodeChar_ascii (c : Char) : ∀ d ∈ unidecodeChar c, d.toNat < 128 := by
  intro d hd
  unfold unidecodeChar at hd
  split at hd
  · rename_i h
    rw [List.mem_singleton] at hd
    rw [hd]
    exact h
  · split at hd
    · rename_i v hv
      exact uniLookup_ascii c uniTable uniTable_ascii v hv d hd
    · simp at hd

theorem unidecodeM_ascii (s : String) : ∀ d ∈ (unidecodeM s).data, d.toNat < 128 := by
  intro d hd
  have hd' : d ∈ s.data.flatMap unidecodeChar := hd
  rcases List.mem_flatMap.mp hd' with ⟨c, _, hdc⟩
  exact unidecodeChar_ascii c d hdc

theorem flatMap_unidecode_id : ∀ (l : List Char), (∀ c ∈ l, c.toNat < 128) →
    l.flatMap unidecodeChar = l := by
  intro l
  induction l with
  | nil => intro _; rfl
  | cons c rest ih =>
    intro h
    have hc : c.toNat < 128 := h c (List.mem_cons_self _ _)
    simp only [List.flatMap_cons]
    rw [ih (fun d hd => h d (List.mem_cons_of_mem _ hd))]
    unfold unidecodeChar
    rw [if_pos hc]
    rfl

theorem unidecodeM_fixed (s : String) (h : ∀ c ∈ s.data, c.toNat < 128) :
    unidecodeM s = s := by
  unfold unidecodeM
  rw [flatMap_unidecode_id s.data h]

theorem map_toLower_id : ∀ (l : List Char), (∀ c ∈ l, ¬(65 ≤ c.toNat ∧ c.toNat ≤ 90)) →
    l.map Char.toLower = l := by
  intro l
  induction l with
  | nil => intro _; rfl
  | cons c rest ih =>
    intro h
    simp only [List.map_cons]
    rw [toLower_eq_self c (h c (List.mem_cons_self _ _)),
      ih (fun d hd => h d (List.mem_cons_of_mem _ hd))]

theorem lowerStr_fixed (s : String) (h : ∀ c ∈ s.data, ¬(65 ≤ c.toNat ∧ c.toNat ≤ 90)) :
    lowerStr s = s := by
  unfold lowerStr
  rw [map_toLower_id s.data h]

theorem lowerStr_chars (s : String) (h : ∀ c ∈ s.data, c.toNat < 128) :
    ∀ c ∈ (lowerStr s).data, normChar c := by
  intro c hc
  have hc' : c ∈ s.data.map Char.toLower := hc
  rcases List.mem_map.mp hc' with ⟨d, hd, rfl⟩
  exact normChar_toLower d (h d hd)

theorem foldl_replace_chars :
    ∀ (rules : List (String × String)) (t : String),
      (∀ r ∈ rules, ∀ c ∈ r.2.data, normChar c) →
      (∀ c ∈ t.data, normChar c) →
      ∀ c ∈ (rules.foldl (fun t p => strReplace t p.1 p.2) t).data, normChar c := by
  intro rules
  induction rules with
  | nil => intro t _ ht; exact ht
  | cons r rest ih =>
    intro t hr ht
    simp only [List.foldl_cons]
    apply ih
    · intro q hq
      exact hr q (List.mem_cons_of_mem _ hq)
    · intro c hc
      have hc' : c ∈ replaceAux r.1.data r.2.data t.data.length t.data := hc
      rcases mem_replaceAux _ _ _ _ _ hc' with h1 | h2
      · exact ht c h1
      · exact hr r (List.mem_cons_self _ _) c h2

theorem fuzz_text_chars (s : String) : ∀ c ∈ (fuzz_text s).data, normChar c := by
  unfold fuzz_text
  apply foldl_replace_chars
  · decide
  · exact lowerStr_chars _ (unidecodeM_ascii s)

theorem foldl_replace_fixed :
    ∀ (rules : List (String × String)) (t : String),
      (∀ r ∈ rules, occursIn r.1.data t.data = false) →
      rules.foldl (fun t p => strReplace t p.1 p.2) t = t := by
  intro rules
  induction rules with
  | nil => intro t _; rfl
  | cons r rest ih =>
    intro t h
    simp only [List.foldl_cons]
    have hstep : strReplace t r.1 r.2 = t := by
      unfold strReplace
      rw [replaceAux_of_not_occurs _ _ _ _ (h r (List.mem_cons_self _ _))]
    rw [hstep]
    exact ih t (fun q hq => h q (List.mem_cons_of_mem _ hq))

/-- C5 (counterexample): `fuzz_text` is not idempotent.  On the input
`" + + "` the rule `" + " ↦ " and "` fires once (occurrences are consumed
left to right, non-overlapping), producing `" and + "`, and a second
normalization pass fires again, producing `" and and "`. -/
theorem fuzz_text_not_idempotent :
    fuzz_text " + + " = " and + " ∧
    fuzz_text (fuzz_text " + + ") = " and and " ∧
    fuzz_text (fuzz_text " + + ") ≠ fuzz_text " + + " := by
  decide

/-- C5 (amended): `fuzz_text` is idempotent on every input whose normalized
form contains no occurrence of a replacement source pattern; in general a
replacement can recreate a pattern, so idempotence fails (see the
counterexample `" + + "`). -/
theorem fuzz_text_idem_of_patterns_absent (s : String)
    (h : ∀ r ∈ REPLACEMENTS, occursIn r.1.data (fuzz_text s).data = false) :
    fuzz_text (fuzz_text s) = fuzz_text s := by
  have hchars := fuzz_text_chars s
  have h1 : unidecodeM (fuzz_text s) = fuzz_text s :=
    unidecodeM_fixed _ (fun c hc => (hchars c hc).1)
  have h2 : lowerStr (fuzz_text s) = fuzz_text s :=
    lowerStr_fixed _ (fun c hc => (hchars c hc).2)
  calc fuzz_text (fuzz_text s)
      = REPLACEMENTS.foldl (fun t p => strReplace t p.1 p.2)
          (lowerStr (unidecodeM (fuzz_text s))) := rfl
    _ = REPLACEMENTS.foldl (fun t p => strReplace t p.1 p.2) (fuzz_text s) := by
          rw [h1, h2]
    _ = fuzz_text s := foldl_replace_fixed REPLACEMENTS (fuzz_text s) h

/-- C5 (witness): the amended idempotence theorem applied at the concrete
input `"hello world"`. -/
theorem fuzz_text_idem_witness :
    (∀ r ∈ REPLACEMENTS, occursIn r.1.data (fuzz_text "hello world").data = false) ∧
    fuzz_text (fuzz_text "hello world") = fuzz_text "hello world" :=
  ⟨by decide, fuzz_text_idem_of_patterns_absent "hello world" (by decide)⟩

/-- C1: when the sentinel marker file `<id>.usdb` does not exist in the
computed song folder, `SongData.from_usdb_song` returns all five presence
flags false and `_get_song_txt` reads no file — for every filesystem oracle,
song record and root directory. -/
theorem marker_absent_all_flags_false (env : FsEnv) (song : UsdbSong) (song_dir : String)
    (h : env.path_exists
      (path_join (song_folder_path song song_dir) (toString song.song_id ++ ".usdb"))
      = false) :
    (SongData.from_usdb_song env song song_dir).local_txt = false ∧
    (SongData.from_usdb_song env song song_dir).local_audio = false ∧
    (SongData.from_usdb_song env song song_dir).local_video = false ∧
    (SongData.from_usdb_song env song song_dir).local_cover = false ∧
    (SongData.from_usdb_song env song song_dir).local_background = false ∧
    (get_song_txt env song song_dir).2 = [] := by
  have hget : get_song_txt env song song_dir = (none, []) := by
    simp only [get_song_txt]
    rw [if_pos h]
  simp [SongData.from_usdb_song, hget]

/-- C1 (witness): the marker-absent theorem at a concrete empty
filesystem. -/
theorem marker_absent_witness :
    fsEnvNone.path_exists
      (path_join (song_folder_path songA "root") (toString songA.song_id ++ ".usdb"))
      = false ∧
    ((SongData.from_usdb_song fsEnvNone songA "root").local_txt = false ∧
      (SongData.from_usdb_song fsEnvNone songA "root").local_audio = false ∧
      (SongData.from_usdb_song fsEnvNone songA "root").local_video = false ∧
      (SongData.from_usdb_song fsEnvNone songA "root").local_cover = false ∧
      (SongData.from_usdb_song fsEnvNone songA "root").local_background = false ∧
      (get_song_txt fsEnvNone songA "root").2 = []) :=
  ⟨rfl, marker_absent_all_flags_false fsEnvNone songA "root" rfl⟩

/-- C9: `_file_exists` is false for a `None` or empty filename on every
filesystem oracle (so without consulting the filesystem), and consequently,
even when the marker exists and the notes file parses, each of the
audio/video/cover/background flags is false whenever the corresponding
header field is `None` or empty. -/
theorem empty_header_flag_false (env : FsEnv) (song : UsdbSong) (song_dir : String)
    (t : SongTxt) (h : (get_song_txt env song song_dir).1 = some t) :
    (∀ (env2 : FsEnv) (folder : String),
      file_exists env2 folder none = false ∧ file_exists env2 folder (some "") = false) ∧
    ((t.headers.mp3 = none ∨ t.headers.mp3 = some "") →
      (SongData.from_usdb_song env song song_dir).local_audio = false) ∧
    ((t.headers.video = none ∨ t.headers.video = some "") →
      (SongData.from_usdb_song env song song_dir).local_video = false) ∧
    ((t.headers.cover = none ∨ t.headers.cover = some "") →
      (SongData.from_usdb_song env song song_dir).local_cover = false) ∧
    ((t.headers.background = none ∨ t.headers.background = some "") →
      (SongData.from_usdb_song env song song_dir).local_background = false) := by
  refine ⟨fun env2 folder => ⟨rfl, rfl⟩, ?_, ?_, ?_, ?_⟩ <;>
    (rintro (hf | hf) <;> simp [SongData.from_usdb_song, h, file_exists, hf])

/-- C9 (witness): on a filesystem where everything exists and the notes
parse to headers with an absent audio filename and an empty video filename,
the audio and video flags are false. -/
theorem empty_header_witness :
    (get_song_txt fsEnvParsed songA "root").1 = some songTxtT ∧
    (SongData.from_usdb_song fsEnvParsed songA "root").local_audio = false ∧
    (SongData.from_usdb_song fsEnvParsed songA "root").local_video = false :=
  ⟨rfl,
    (empty_header_flag_false fsEnvParsed songA "root" songTxtT rfl).2.1 (Or.inl rfl),
    (empty_header_flag_false fsEnvParsed songA "root" songTxtT rfl).2.2.1 (Or.inr rfl)⟩

/-- C8: `display_data` and `decoration_data` partition the column space:
text columns have a display string and no decoration, status-icon columns
have no display string; both matches are total over the closed column
enum, so no unreachable branch can be hit. -/
theorem display_decoration_partition (sd : SongData) (col : Column) :
    (col.is_status_icon = false →
      sd.decoration_data col = none ∧ (sd.display_data col).isSome = true) ∧
    (col.is_status_icon = true → sd.display_data col = none) := by
  cases col <;>
    simp [SongData.display_data, SongData.decoration_data, Column.is_status_icon]

/-- C8 (witness): the partition theorem at a concrete row, for one text
column and one status-icon column. -/
theorem display_decoration_witness :
    (Column.ARTIST.is_status_icon = false ∧
      songDataA.decoration_data Column.ARTIST = none ∧
      (songDataA.display_data Column.ARTIST).isSome = true) ∧
    (Column.TXT.is_status_icon = true ∧ songDataA.display_data Column.TXT = none) :=
  ⟨⟨rfl, ((display_decoration_partition songDataA Column.ARTIST).1 rfl).1,
      ((display_decoration_partition songDataA Column.ARTIST).1 rfl).2⟩,
    ⟨rfl, (display_decoration_partition songDataA Column.TXT).2 rfl⟩⟩

/-- C10: membership in a `FuzzySearchText` holds exactly when the text is a
substring of the decimal song id or of one of the four normalized fields;
in particular the empty string is contained in every `FuzzySearchText`. -/
theorem fuzzy_contains_iff (song : UsdbSong) (t : String) :
    ((FuzzySearchText.ofSong song).containsText t = true ↔
      (∃ pre post, (toString song.song_id).data = pre ++ (t.data ++ post)) ∨
      (∃ pre post, (fuzz_text song.artist).data = pre ++ (t.data ++ post)) ∨
      (∃ pre post, (fuzz_text song.title).data = pre ++ (t.data ++ post)) ∨
      (∃ pre post, (fuzz_text song.language).data = pre ++ (t.data ++ post)) ∨
      (∃ pre post, (fuzz_text song.edition).data = pre ++ (t.data ++ post))) ∧
    (FuzzySearchText.ofSong song).containsText "" = true := by
  constructor
  · simp only [FuzzySearchText.containsText, FuzzySearchText.ofSong, Bool.or_eq_true,
      occursIn_true_iff, or_assoc]
  · simp only [FuzzySearchText.containsText, FuzzySearchText.ofSong, Bool.or_eq_true]
    exact Or.inl (Or.inl (Or.inl (Or.inl (occursIn_nil_pat _))))

/-- C6: `url_from_video_resouce` normalizes by exactly three cases — scheme
separator present: unchanged; else path separator present: `https://`
prefixed; else: canonical YouTube watch URL — with the three concrete
examples of the spec. -/
theorem url_from_video_resouce_cases :
    (∀ s : String,
      (occursIn "://".data s.data = true → url_from_video_resouce s = s) ∧
      (occursIn "://".data s.data = false → occursIn "/".data s.data = true →
        url_from_video_resouce s = "https://" ++ s) ∧
      (occursIn "://".data s.data = false → occursIn "/".data s.data = false →
        url_from_video_resouce s = "https://www.youtube.com/watch?v=" ++ s)) ∧
    url_from_video_resouce "https://x.com/y" = "https://x.com/y" ∧
    url_from_video_resouce "vimeo.com/55" = "https://vimeo.com/55" ∧
    url_from_video_resouce "abc123" = "https://www.youtube.com/watch?v=abc123" := by
  refine ⟨fun s => ⟨?_, ?_, ?_⟩, rfl, rfl, rfl⟩
  · intro h1
    simp [url_from_video_resouce, h1]
  · intro h1 h2
    simp [url_from_video_resouce, h1, h2]
  · intro h1 h2
    simp [url_from_video_resouce, h1, h2]

/-- C6 (witness): the case theorem applied at the concrete input
`"vimeo.com/55"`. -/
theorem url_from_video_resouce_witness :
    occursIn "://".data "vimeo.com/55".data = false ∧
    occursIn "/".data "vimeo.com/55".data = true ∧
    url_from_video_resouce "vimeo.com/55" = "https://" ++ "vimeo.com/55" :=
  ⟨by decide, by decide,
    (url_from_video_resouce_cases.1 "vimeo.com/55").2.1 (by decide) (by decide)⟩

theorem check_url_error_iff (env : NetEnv) (url : String) (e : RequestError) :
    check_url env url = .error e ↔
      is_domain_allowed (netloc url) = true ∧ env.requests_get 1 url = .error e := by
  unfold check_url
  cases hb : is_domain_allowed (netloc url) with
  | false => simp [hb]
  | true =>
    rw [if_neg (by simp [hb])]
    cases hg : env.requests_get 1 url with
    | error e2 => simp [hg, hb]
    | ok resp =>
      by_cases h1 : netloc resp.url = netloc url
      · simp [h1]
      · by_cases h2 : is_domain_allowed (netloc resp.url) = false
        · simp [h1, h2]
        · simp [h1, h2]

theorem download_image_error_iff (env : NetEnv) (url : String) (e : RequestError) :
    download_image env url = .error e ↔ check_url env url = .error e := by
  unfold download_image
  cases hc : check_url env url with
  | error e2 => simp
  | ok pr =>
    obtain ⟨⟨allowed, dom⟩, lg⟩ := pr
    cases allowed with
    | false => simp
    | true =>
      cases hg : env.requests_get 60 url with
      | error e2 => simp
      | ok reply =>
        by_cases h1 : 100 ≤ reply.status_code ∧ reply.status_code < 399
        · simp [h1]
        · by_cases h2 : 400 ≤ reply.status_code ∧ reply.status_code < 499
          · simp [h1, h2]
          · by_cases h3 : 500 ≤ reply.status_code ∧ reply.status_code < 599
            · simp [h1, h2, h3]
            · simp [h1, h2, h3]

theorem download_video_error_iff (env : NetEnv) (resource : String)
    (fmt : Option String) (e : RequestError) :
    download_video env resource fmt = .error e ↔
      check_url env (url_from_video_resouce resource) = .error e := by
  unfold download_video
  cases hc : check_url env (url_from_video_resouce resource) with
  | error e2 => simp [hc]
  | ok pr =>
    obtain ⟨⟨allowed, dom⟩, lg⟩ := pr
    cases allowed with
    | false => simp [hc]
    | true =>
      cases hg : env.ydl_extract (url_from_video_resouce resource) with
      | error e2 => simp [hc, hg]
      | ok filename => simp [hc, hg]


/-- C3 (amended): no exception escapes `download_image` or `download_video`
except a transport error raised by the redirect probe `requests.get(url,
timeout=1)` inside `check_url`, which is not wrapped in a `try` and
propagates whenever the URL's own domain passes the allow-list; every other
recoverable failure (disallowed domain, download-library error, transport
error of the image fetch, HTTP error status) is absorbed into a `none`
result. -/
theorem download_error_escape_iff (env : NetEnv) :
    (∀ (url : String) (e : RequestError),
      download_image env url = .error e ↔
        is_domain_allowed (netloc url) = true ∧ env.requests_get 1 url = .error e) ∧
    (∀ (resource : String) (fmt : Option String) (e : RequestError),
      download_video env resource fmt = .error e ↔
        is_domain_allowed (netloc (url_from_video_resouce resource)) = true ∧
          env.requests_get 1 (url_from_video_resouce resource) = .error e) :=
  ⟨fun url e => (download_image_error_iff env url e).trans (check_url_error_iff env url e),
    fun resource fmt e => (download_video_error_iff env resource fmt e).trans
      (check_url_error_iff env (url_from_video_resouce resource) e)⟩

/-- C3 (counterexample): on a network oracle whose requests all time out, a
timeout of the redirect probe inside `check_url` escapes `download_image`
and `download_video` as a raised exception instead of a `None` result. -/
theorem download_probe_error_escapes :
    download_image envTimeout "https://fanart.tv/x" = .error RequestError.timeout ∧
    download_video envTimeout "fanart.tv/x" none = .error RequestError.timeout :=
  ⟨rfl, rfl⟩

/-- C2: the status-code classification of `download_image` at the boundary
statuses.  Statuses 250 and 404 behave as the claim states, but Python's
`range(100, 399)`, `range(400, 499)` and `range(500, 599)` exclude their
upper bounds, so status 399 — a redirect-class status the code's own comment
declares a success — yields no content, and 399, 499 and 599 all fall
through with no log entry at all. -/
theorem download_image_status_boundaries :
    download_image (envStatus 250) "https://fanart.tv/x" = .ok (some "body", []) ∧
    download_image (envStatus 404) "https://fanart.tv/x"
      = .ok (none, [LogEntry.errorClient 404 "https://fanart.tv/x"]) ∧
    download_image (envStatus 500) "https://fanart.tv/x"
      = .ok (none, [LogEntry.errorServer 500 "https://fanart.tv/x"]) ∧
    download_image (envStatus 399) "https://fanart.tv/x" = .ok (none, []) ∧
    download_image (envStatus 499) "https://fanart.tv/x" = .ok (none, []) ∧
    download_image (envStatus 599) "https://fanart.tv/x" = .ok (none, []) :=
  ⟨rfl, rfl, rfl, rfl, rfl, rfl⟩

/-- C4: `check_url` rejects with the URL's own domain when it is not
allow-listed (without any network request), and otherwise — when the probe
returns — rejects with the final redirect domain when that differs and is
not allow-listed, accepting with `(True, None)` when the final domain equals
the initial one or is itself allow-listed. -/
theorem check_url_spec (env : NetEnv) (url : String) :
    (is_domain_allowed (netloc url) = false →
      check_url env url = .ok ((false, some (netloc url)), [])) ∧
    (∀ resp : HttpResponse, is_domain_allowed (netloc url) = true →
      env.requests_get 1 url = .ok resp →
      ((netloc resp.url ≠ netloc url → is_domain_allowed (netloc resp.url) = false →
          check_url env url
            = .ok ((false, some (netloc resp.url)),
                [LogEntry.debugRedirect (netloc url) (netloc resp.url)])) ∧
        (netloc resp.url = netloc url →
          check_url env url = .ok ((true, none), [])) ∧
        (netloc resp.url ≠ netloc url → is_domain_allowed (netloc resp.url) = true →
          check_url env url
            = .ok ((true, none),
                [LogEntry.debugRedirect (netloc url) (netloc resp.url)])))) := by
  constructor
  · intro hb
    simp only [check_url]
    rw [if_pos hb]
  · intro resp hb hg
    refine ⟨?_, ?_, ?_⟩
    · intro hne hf
      simp only [check_url, hg]
      rw [if_neg (by simp [hb]), if_pos hne, if_pos hf]
    · intro heq
      simp only [check_url, hg]
      rw [if_neg (by simp [hb]), if_neg (by simp [heq])]
    · intro hne hf
      simp only [check_url, hg]
      rw [if_neg (by simp [hb]), if_pos hne, if_neg (by simp [hf])]


/-- C4 (witness): the `check_url` case theorem at three concrete
situations — disallowed initial domain, allowed domain without redirect,
allowed domain redirecting to a disallowed one. -/
theorem check_url_spec_witness :
    check_url envTimeout "https://evil.com/x" = .ok ((false, some "evil.com"), []) ∧
    check_url (envStatus 200) "https://fanart.tv/x" = .ok ((true, none), []) ∧
    check_url (envRedirect "https://evil.com/a") "https://fanart.tv/x"
      = .ok ((false, some "evil.com"),
          [LogEntry.debugRedirect "fanart.tv" "evil.com"]) :=
  ⟨(check_url_spec envTimeout "https://evil.com/x").1 rfl,
    ((check_url_spec (envStatus 200) "https://fanart.tv/x").2
      ⟨"https://fanart.tv/x", 200, ""⟩ rfl rfl).2.1 rfl,
    ((check_url_spec (envRedirect "https://evil.com/a") "https://fanart.tv/x").2
      ⟨"https://evil.com/a", 200, "body"⟩ rfl rfl).1 (by decide) rfl⟩

theorem length_toggle_cat (ctrl : Bool) :
    ∀ (vi : Nat) (cat : List Bool), (toggle_cat ctrl vi cat).length = cat.length := by
  intro vi cat
  induction cat generalizing vi with
  | nil => cases vi <;> rfl
  | cons b rest ih =>
    cases vi with
    | zero => cases ctrl <;> simp [toggle_cat]
    | succ v => simp [toggle_cat, ih v]

theorem length_toggle_checked (ctrl : Bool) :
    ∀ (ci vi : Nat) (st : List (List Bool)),
      (toggle_checked ctrl ci vi st).length = st.length := by
  intro ci vi st
  induction st generalizing ci with
  | nil => cases ci <;> rfl
  | cons cat rest ih =>
    cases ci with
    | zero => simp [toggle_checked]
    | succ c => simp [toggle_checked, ih c]

theorem toggle_checked_getD_ne (ctrl : Bool) :
    ∀ (ci vi c : Nat) (st : List (List Bool)), c ≠ ci →
      (toggle_checked ctrl ci vi st).getD c [] = st.getD c [] := by
  intro ci vi c st
  induction st generalizing ci c with
  | nil => intro _; cases ci <;> rfl
  | cons cat rest ih =>
    intro hne
    cases ci with
    | zero =>
      cases c with
      | zero => exact absurd rfl hne
      | succ c2 => simp [toggle_checked]
    | succ ci2 =>
      cases c with
      | zero => simp [toggle_checked]
      | succ c2 =>
        simp only [toggle_checked, List.getD_cons_succ]
        exact ih ci2 c2 (fun h => hne (by rw [h]))

theorem toggle_checked_getD_eq (ctrl : Bool) :
    ∀ (ci vi : Nat) (st : List (List Bool)), ci < st.length →
      (toggle_checked ctrl ci vi st).getD ci [] = toggle_cat ctrl vi (st.getD ci []) := by
  intro ci vi st
  induction st generalizing ci with
  | nil => intro h; exact absurd h (by simp)
  | cons cat rest ih =>
    intro h
    cases ci with
    | zero => simp [toggle_checked]
    | succ ci2 =>
      simp only [toggle_checked, List.getD_cons_succ]
      apply ih
      simp only [List.length_cons] at h
      omega

theorem toggle_cat_getD_click (ctrl : Bool) :
    ∀ (vi : Nat) (cat : List Bool), vi < cat.length →
      (toggle_cat ctrl vi cat).getD vi false = !(cat.getD vi false) := by
  intro vi cat
  induction cat generalizing vi with
  | nil => intro h; exact absurd h (by simp)
  | cons b rest ih =>
    intro h
    cases vi with
    | zero => simp [toggle_cat]
    | succ v =>
      simp only [toggle_cat, List.getD_cons_succ]
      apply ih
      simp only [List.length_cons] at h
      omega

theorem getD_map_false : ∀ (j : Nat) (l : List Bool),
    ((l.map fun _ => false).getD j false) = false := by
  intro j l
  induction l generalizing j with
  | nil => cases j <;> rfl
  | cons b rest ih =>
    cases j with
    | zero => rfl
    | succ j2 =>
      simp only [List.map_cons, List.getD_cons_succ]
      exact ih j2

theorem toggle_cat_getD_sibling (ctrl : Bool) :
    ∀ (vi j : Nat) (cat : List Bool), j < cat.length → j ≠ vi →
      (toggle_cat ctrl vi cat).getD j false
        = (if ctrl then cat.getD j false else false) := by
  intro vi j cat
  induction cat generalizing vi j with
  | nil => intro h _; exact absurd h (by simp)
  | cons b rest ih =>
    intro hj hne
    cases vi with
    | zero =>
      cases j with
      | zero => exact absurd rfl hne
      | succ j2 =>
        cases ctrl with
        | false => simp [toggle_cat, getD_map_false]
        | true => simp [toggle_cat]
    | succ v =>
      cases j with
      | zero => simp [toggle_cat]
      | succ j2 =>
        simp only [toggle_cat, List.getD_cons_succ]
        apply ih
        · simp only [List.length_cons] at hj
          omega
        · intro hh
          exact hne (by rw [hh])

theorem mem_changed_cat :
    ∀ (a b : List Bool), a.length = b.length →
      ∀ v : Nat, v ∈ changed_cat a b ↔
        (v < a.length ∧ a.getD v false ≠ b.getD v false) := by
  intro a
  induction a with
  | nil =>
    intro b hlen v
    cases b with
    | nil => simp [changed_cat]
    | cons y bs => simp at hlen
  | cons x as ih =>
    intro b hlen v
    cases b with
    | nil => simp at hlen
    | cons y bs =>
      simp only [List.length_cons] at hlen
      have hlen2 : as.length = bs.length := by omega
      simp only [changed_cat, List.mem_append, List.mem_map]
      cases v with
      | zero =>
        constructor
        · rintro (h0 | ⟨v2, hv2, heq⟩)
          · by_cases hxy : x = y
            · rw [if_pos hxy] at h0
              simp at h0
            · exact ⟨by simp, by simpa using hxy⟩
          · exact absurd heq (by omega)
        · rintro ⟨-, hne⟩
          left
          rw [if_neg (by simpa using hne)]
          simp
      | succ v2 =>
        constructor
        · rintro (h0 | ⟨v3, hv3, heq⟩)
          · by_cases hxy : x = y
            · rw [if_pos hxy] at h0
              simp at h0
            · rw [if_neg hxy] at h0
              simp at h0
          · have hv : v3 = v2 := by omega
            subst hv
            have hres := (ih bs hlen2 v3).mp hv3
            simp only [List.length_cons, List.getD_cons_succ]
            exact ⟨by omega, hres.2⟩
        · rintro ⟨hlt, hne⟩
          right
          refine ⟨v2, ?_, rfl⟩
          apply (ih bs hlen2 v2).mpr
          simp only [List.length_cons] at hlt
          simp only [List.getD_cons_succ] at hne
          exact ⟨by omega, hne⟩

theorem mem_changed_nodes :
    ∀ (s1 s2 : List (List Bool)), s1.length = s2.length →
      (∀ i : Nat, (s1.getD i []).length = (s2.getD i []).length) →
      ∀ (c v : Nat), (c, v) ∈ changed_nodes s1 s2 ↔
        (c < s1.length ∧ v < (s1.getD c []).length ∧
          (s1.getD c []).getD v false ≠ (s2.getD c []).getD v false) := by
  intro s1
  induction s1 with
  | nil =>
    intro s2 hlen hcat c v
    cases s2 with
    | nil => simp [changed_nodes]
    | cons c2 r2 => simp at hlen
  | cons c1 r1 ih =>
    intro s2 hlen hcat c v
    cases s2 with
    | nil => simp at hlen
    | cons c2 r2 =>
      simp only [List.length_cons] at hlen
      have hlen2 : r1.length = r2.length := by omega
      have hhead : c1.length = c2.length := hcat 0
      have htail : ∀ i : Nat, (r1.getD i []).length = (r2.getD i []).length :=
        fun i => hcat (i + 1)
      simp only [changed_nodes, List.mem_append, List.mem_map, Prod.mk.injEq]
      cases c with
      | zero =>
        constructor
        · rintro (⟨w, hw, -, hwv⟩ | ⟨p, -, hp1, -⟩)
          · subst hwv
            have hres := (mem_changed_cat c1 c2 hhead w).mp hw
            simpa using hres
          · exact absurd hp1 (by omega)
        · rintro ⟨-, hlt, hne⟩
          left
          exact ⟨v, (mem_changed_cat c1 c2 hhead v).mpr ⟨by simpa using hlt, by simpa using hne⟩,
            rfl, rfl⟩
      | succ c3 =>
        constructor
        · rintro (⟨w, -, hc0, -⟩ | ⟨p, hp, hp1, hp2⟩)
          · exact absurd hc0 (by omega)
          · obtain ⟨p1, p2⟩ := p
            simp only at hp1 hp2
            have hpc : p1 = c3 := by omega
            subst hpc
            subst hp2
            have hres := (ih r2 hlen2 htail p1 p2).mp hp
            simp only [List.length_cons, List.getD_cons_succ]
            exact ⟨by omega, hres.2.1, hres.2.2⟩
        · rintro ⟨hlt, hv, hne⟩
          right
          refine ⟨(c3, v), ?_, rfl, rfl⟩
          apply (ih r2 hlen2 htail c3 v).mpr
          simp only [List.length_cons] at hlt
          simp only [List.getD_cons_succ] at hv hne
          exact ⟨by omega, hv, hne⟩

/-- C7: clicking a variant node toggles it; without the modifier the checked
siblings in its category are cleared (single-select), with the modifier the
siblings are untouched (multi-select); other categories never change; and a
change notification is emitted for exactly the nodes whose checked state
changed, not just the clicked one. -/
theorem filter_tree_click (ctrl : Bool) (st : List (List Bool)) (ci vi : Nat)
    (hci : ci < st.length) (hvi : vi < (st.getD ci []).length) :
    (((on_click ctrl st ci vi).1.getD ci []).getD vi false
        = !((st.getD ci []).getD vi false)) ∧
    (∀ j, j < (st.getD ci []).length → j ≠ vi →
      ((on_click ctrl st ci vi).1.getD ci []).getD j false
        = (if ctrl then (st.getD ci []).getD j false else false)) ∧
    (∀ c, c ≠ ci → (on_click ctrl st ci vi).1.getD c [] = st.getD c []) ∧
    (∀ c v, (c, v) ∈ (on_click ctrl st ci vi).2 ↔
      (c < st.length ∧ v < (st.getD c []).length ∧
        (st.getD c []).getD v false
          ≠ ((on_click ctrl st ci vi).1.getD c []).getD v false)) := by
  have h1 : (on_click ctrl st ci vi).1 = toggle_checked ctrl ci vi st := rfl
  have h2 : (on_click ctrl st ci vi).2
      = changed_nodes st (toggle_checked ctrl ci vi st) := rfl
  have hcat : ∀ i : Nat,
      (st.getD i []).length = ((toggle_checked ctrl ci vi st).getD i []).length := by
    intro i
    by_cases hic : i = ci
    · subst hic
      rw [toggle_checked_getD_eq ctrl i vi st hci, length_toggle_cat]
    · rw [toggle_checked_getD_ne ctrl ci vi i st hic]
  refine ⟨?_, ?_, ?_, ?_⟩
  · rw [h1, toggle_checked_getD_eq ctrl ci vi st hci,
      toggle_cat_getD_click ctrl vi _ hvi]
  · intro j hj hne
    rw [h1, toggle_checked_getD_eq ctrl ci vi st hci,
      toggle_cat_getD_sibling ctrl vi j _ hj hne]
  · intro c hc
    rw [h1, toggle_checked_getD_ne ctrl ci vi c st hc]
  · intro c v
    rw [h2, h1]
    exact mem_changed_nodes st (toggle_checked ctrl ci vi st)
      (length_toggle_checked ctrl ci vi st).symm hcat c v

/-- C7 (witness): the click theorem at the concrete one-category tree
`[[true, false]]`, plain-clicking variant 1. -/
theorem filter_tree_click_witness :
    (0 < ([[true, false]] : List (List Bool)).length ∧
      1 < (([[true, false]] : List (List Bool)).getD 0 []).length) ∧
    ((on_click false [[true, false]] 0 1).1.getD 0 []).getD 1 false
      = !((([[true, false]] : List (List Bool)).getD 0 []).getD 1 false) :=
  ⟨⟨by decide, by decide⟩,
    (filter_tree_click false [[true, false]] 0 1 (by decide) (by decide)).1⟩

end UsdbSyncer

